import Mathlib

/-!
Verification development for the rulebook HTML-to-markdown numbering engine
(`scripts/convert_rules_html_to_md.py`).

The document tree is embedded as a mutual inductive (`Node`/`NodeList`): an
element node carries its tag, its style string, its ordered class list, its
attribute association list and its ordered children; a text leaf carries its
string.  The Python code consults parent pointers only inside `is_hidden`,
which walks the ancestor chain looking at style strings; the embedding passes
the list of ancestor style strings (`anc`, innermost first) down the
traversal instead.

All functions are total and structurally recursive, so concrete documents
evaluate by `decide` / `rfl`.  Strings are handled through their character
lists; Python's `\s` is modelled as the six ASCII whitespace characters and
`str.isdigit` / `str.lower` as their ASCII restrictions (all inputs of the
converter are ASCII).
-/

/-! ## Character and string utilities -/

def isPyWs (c : Char) : Bool :=
  c = ' ' || c = '\t' || c = '\n' || c = '\r' || c = '\x0b' || c = '\x0c'

def isPyDigit (c : Char) : Bool :=
  '0' ≤ c && c ≤ '9'

def lowerChar (c : Char) : Char :=
  if 'A' ≤ c ∧ c ≤ 'Z' then Char.ofNat (c.toNat + 32) else c

def pyLower (s : String) : String :=
  ⟨s.data.map lowerChar⟩

/-- Scan for `needle` occurring contiguously inside `hay` (Python's `in`). -/
def containsSub (needle : List Char) : List Char → Bool
  | [] => needle.isEmpty
  | c :: rest => needle.isPrefixOf (c :: rest) || containsSub needle rest

def pyIn (needle hay : String) : Bool :=
  containsSub needle.data hay.data

def pyStarts (s pre : String) : Bool :=
  pre.data.isPrefixOf s.data

/-- Collapse every run of whitespace to a single space (`re.sub(r'\s+', ' ', ·)`). -/
def collapseWs : List Char → List Char
  | [] => []
  | [c] => if isPyWs c then [' '] else [c]
  | c :: d :: cs =>
    if isPyWs c && isPyWs d then collapseWs (d :: cs)
    else (if isPyWs c then ' ' else c) :: collapseWs (d :: cs)

def pyStrip (l : List Char) : List Char :=
  ((l.dropWhile isPyWs).reverse.dropWhile isPyWs).reverse

/-- Python `clean_text`: whitespace-collapse then strip. -/
def clean_text (s : String) : String :=
  ⟨pyStrip (collapseWs s.data)⟩

def digitChar : Nat → Char
  | 0 => '0' | 1 => '1' | 2 => '2' | 3 => '3' | 4 => '4'
  | 5 => '5' | 6 => '6' | 7 => '7' | 8 => '8' | 9 => '9'
  | _ => '?'

/-- Decimal digits of `n`, most significant first; `fuel` bounds the recursion. -/
def natDecAux : Nat → Nat → List Char
  | 0, _ => []
  | fuel + 1, n =>
    if n < 10 then [digitChar n]
    else natDecAux fuel (n / 10) ++ [digitChar (n % 10)]

def natDec (n : Nat) : List Char :=
  natDecAux (n + 1) n

/-- Python's `f"{n:02d}"` for a natural number. -/
def pad2 (n : Nat) : String :=
  if n < 10 then ⟨'0' :: natDec n⟩ else ⟨natDec n⟩

def natOfDigits (l : List Char) : Nat :=
  l.foldl (fun a c => 10 * a + (c.toNat - 48)) 0

def joinWith (sep : String) : List String → String
  | [] => ""
  | [s] => s
  | s :: rest => s ++ sep ++ joinWith sep rest

def joinParts : List String → String
  | [] => ""
  | s :: rest => s ++ joinParts rest

/-! ## The document tree -/

mutual
inductive Node where
  | text : String → Node
  | elem : String → String → List String → List (String × String) → NodeList → Node
inductive NodeList where
  | nil : NodeList
  | cons : Node → NodeList → NodeList
end

def Node.tagOf : Node → String
  | .text _ => ""
  | .elem t _ _ _ _ => t

def Node.styleOf : Node → String
  | .text _ => ""
  | .elem _ st _ _ _ => st

def Node.classesOf : Node → List String
  | .text _ => []
  | .elem _ _ cl _ _ => cl

def Node.attrsOf : Node → List (String × String)
  | .text _ => []
  | .elem _ _ _ a _ => a

def Node.kidsOf : Node → NodeList
  | .text _ => NodeList.nil
  | .elem _ _ _ _ ch => ch

def getAttr (attrs : List (String × String)) (k : String) : Option String :=
  (attrs.find? (fun p => p.1 == k)).map Prod.snd

/-! ## Visibility filter (`is_hidden`) -/

/-- Drop the literal word `p` from the front of a character list, or fail. -/
def dropLit : List Char → List Char → Option (List Char)
  | [], cs => some cs
  | _ :: _, [] => none
  | p :: ps, c :: cs => if c = p then dropLit ps cs else none

/-- One position of the regex `display\s*:\s*none` (case-insensitive input is
pre-lowered): the literal `display`, optional whitespace, a colon, optional
whitespace, the literal `none`. -/
def matchDNAt (l : List Char) : Bool :=
  match dropLit "display".data l with
  | none => false
  | some r1 =>
    match r1.dropWhile isPyWs with
    | ':' :: r3 => "none".data.isPrefixOf (r3.dropWhile isPyWs)
    | _ => false

def scanDN : List Char → Bool
  | [] => false
  | c :: rest => matchDNAt (c :: rest) || scanDN rest

/-- The style test of `is_hidden`: the cheap substring guard and then the
`display\s*:\s*none` regex, both on the lowered style string. -/
def styleDN (style : String) : Bool :=
  let ls := (pyLower style).data
  containsSub "display".data ls && containsSub "none".data ls && scanDN ls

/-- Python `is_hidden(element)`: element or any ancestor tag has a `display:none`
style.  `anc` is the list of ancestor style strings, innermost first; a text
leaf is never a `Tag` and reports `false`. -/
def is_hidden (anc : List String) : Node → Bool
  | .text _ => false
  | .elem _ st _ _ _ => styleDN st || anc.any styleDN

/-! ## Text extractor (`get_text_content`) -/

mutual
/-- Python `get_text_content(element, skip_links, exclude_nested_lists)`. -/
def get_text_content (anc : List String) (skipLinks exclNested : Bool) (n : Node) : String :=
  match n with
  | .text s => s
  | .elem t st cl a ch =>
    if is_hidden anc (.elem t st cl a ch) then ""
    else if cl.contains "notclassic" then ""
    else clean_text (joinParts (textParts (st :: anc) skipLinks exclNested ch))

/-- The per-child dispatch of `get_text_content`'s loop over `element.children`. -/
def textParts (anc : List String) (skipLinks exclNested : Bool) (l : NodeList) : List String :=
  match l with
  | .nil => []
  | .cons child rest =>
    (match child with
     | .text s => [s]
     | .elem ct cst ccl ca cch =>
       if exclNested && (ct == "ol" || ct == "ul") then []
       else if ct = "a" then
         (if skipLinks then
            [get_text_content anc true exclNested (.elem ct cst ccl ca cch)]
          else
            let href := (getAttr ca "href").getD ""
            if ccl.contains "addendum_link" || ccl.contains "supersede_link" then
              [get_text_content anc true exclNested (.elem ct cst ccl ca cch)]
            else if pyIn "rules#" href then
              [get_text_content anc true exclNested (.elem ct cst ccl ca cch)]
            else
              [get_text_content anc true exclNested (.elem ct cst ccl ca cch)])
       else if ct = "p" && ccl.contains "example" then []
       else if ct = "b" || ct = "strong" || ct = "i" || ct = "em" || ct = "span" then
         [get_text_content anc skipLinks exclNested (.elem ct cst ccl ca cch)]
       else
         [get_text_content anc skipLinks exclNested (.elem ct cst ccl ca cch)])
    ++ textParts anc skipLinks exclNested rest
end

/-! ## Descendant search (BeautifulSoup `find` / `find_all`, document order) -/

mutual
/-- All proper descendants of a node, pre-order, each paired with its own
ancestor-style list (used to evaluate `is_hidden` at that descendant). -/
def allDesc (anc : List String) (n : Node) : List (List String × Node) :=
  match n with
  | .text _ => []
  | .elem _ st _ _ ch => allDescList (st :: anc) ch

def allDescList (anc : List String) (l : NodeList) : List (List String × Node) :=
  match l with
  | .nil => []
  | .cons c rest => (anc, c) :: (allDesc anc c ++ allDescList anc rest)
end

/-- BeautifulSoup `element.find(tag)`: first descendant with the given tag, document order. -/
def findDescTag (anc : List String) (tag : String) (n : Node) : Option (List String × Node) :=
  (allDesc anc n).find? (fun p => p.2.tagOf == tag)

/-- Whether `element.find('a', {'name': True})` is not `None`. -/
def hasNamedA (n : Node) : Bool :=
  (allDesc [] n).any (fun p => p.2.tagOf == "a" && (getAttr p.2.attrsOf "name").isSome)

/-- First direct child with tag `li` (`find_all('li', recursive=False)[0]`). -/
def firstLi : NodeList → Option Node
  | .nil => none
  | .cons c rest => if c.tagOf = "li" then some c else firstLi rest

/-- BeautifulSoup `element.find('ol', recursive=False)`: first direct child with tag `ol`. -/
def findOlChild : NodeList → Option Node
  | .nil => none
  | .cons c rest => if c.tagOf = "ol" then some c else findOlChild rest

/-! ## Cross-reference extractor (`extract_cross_references`) -/

def takeDigits (cs : List Char) : List Char × List Char :=
  (cs.takeWhile isPyDigit, cs.dropWhile isPyDigit)

/-- The greedy `(?:\.\d+)*` tail of the numeral regex; `fuel` bounds recursion
(each iteration consumes at least two characters). -/
def numTailAux : Nat → List Char → List Char × List Char
  | 0, cs => ([], cs)
  | fuel + 1, cs =>
    match cs with
    | '.' :: rest =>
      let ds := rest.takeWhile isPyDigit
      if ds.isEmpty then ([], cs)
      else
        let p := numTailAux fuel (rest.dropWhile isPyDigit)
        ('.' :: ds ++ p.1, p.2)
    | _ => ([], cs)

/-- Match `[+-]?\d+\.\d+(?:\.\d+)*` anchored at the start of `cs`. -/
def matchNumAt (cs : List Char) : Option String :=
  let sr : List Char × List Char :=
    match cs with
    | '+' :: r => (['+'], r)
    | '-' :: r => (['-'], r)
    | _ => ([], cs)
  let d1 := takeDigits sr.2
  if d1.1.isEmpty then none
  else
    match d1.2 with
    | '.' :: r2 =>
      let d2 := takeDigits r2
      if d2.1.isEmpty then none
      else
        let tl := numTailAux r2.length d2.2
        some ⟨sr.1 ++ d1.1 ++ '.' :: d2.1 ++ tl.1⟩
    | _ => none

/-- Python `re.search(r'([+-]?\d+\.\d+(?:\.\d+)*)', ·)`: leftmost match. -/
def findNumeral : List Char → Option String
  | [] => none
  | c :: rest =>
    match matchNumAt (c :: rest) with
    | some m => some m
    | none => findNumeral rest

/-- Prepend the sign inferred from the annotation class when absent. -/
def normalizeRef (classes : List String) (ref : String) : String :=
  match ref.data with
  | '+' :: _ => ref
  | '-' :: _ => ref
  | _ => (if classes.contains "addendum_link" then "+" else "-") ++ ref

/-- The `find_all('a', class_=...)` filter: an anchor whose class list holds
`addendum_link` or `supersede_link`. -/
def annoLinkFilter (p : List String × Node) : Bool :=
  p.2.tagOf == "a" &&
    ((p.2.classesOf).contains "addendum_link" || (p.2.classesOf).contains "supersede_link")

def annoLinks (anc : List String) (el : Node) : List (List String × Node) :=
  (allDesc anc el).filter annoLinkFilter

/-- The body of the loop of `extract_cross_references`: skip hidden /
`notclassic` / non-`rules#` links, then extract and sign-normalize the first
dotted numeral of the link's text. -/
def crossRefCandidate (p : List String × Node) : Option String :=
  if is_hidden p.1 p.2 then none
  else if (p.2.classesOf).contains "notclassic" then none
  else if pyIn "rules#" ((getAttr p.2.attrsOf "href").getD "") then
    match findNumeral (get_text_content p.1 true true p.2).data with
    | none => none
    | some ref => some (normalizeRef (p.2.classesOf) ref)
  else none

/-- The accumulation loop with its `seen_refs` duplicate filter. -/
def extractLoop : List (List String × Node) → List String → List String
  | [], _ => []
  | p :: rest, seen =>
    match crossRefCandidate p with
    | none => extractLoop rest seen
    | some ref =>
      if seen.contains ref then extractLoop rest seen
      else ref :: extractLoop rest (ref :: seen)

def crossRefsList (anc : List String) (el : Node) : List String :=
  extractLoop (annoLinks anc el) []

def extract_cross_references (anc : List String) (el : Node) : String :=
  let refs := crossRefsList anc el
  if refs.isEmpty then "" else joinWith " " refs

/-! ## Rule number formatting -/

/-- Python `format_rule_number(section, subsection, rule, subrules)`. -/
def format_rule_number (sec : String) (ss : Option String) (rule : Nat) (subrules : List Nat) : String :=
  joinWith "." ([sec] ++ (match ss with | some s => [s] | none => []) ++
    [pad2 rule] ++ subrules.map pad2)

/-- The rule-number computation of `process_li` (its lines 160-192), as a
function of the item's classification and numbering context. -/
def ruleNumberOf (isIntro : Bool) (sec : String) (ss : Option String)
    (rule : Nat) (path : List Nat) : Option String :=
  if isIntro then
    match ss with
    | some s =>
      if path ≠ [] then
        some (joinWith "." ([sec, s, pad2 rule] ++ path.map pad2 ++ ["00"]))
      else if rule > 0 then
        some (sec ++ "." ++ s ++ "." ++ pad2 rule ++ ".00")
      else
        some (sec ++ "." ++ s ++ ".00")
    | none =>
      if sec = "0" ∧ rule = 0 then some "0.00" else none
  else
    match ss with
    | some s =>
      if path ≠ [] then some (format_rule_number sec (some s) rule path)
      else some (sec ++ "." ++ s ++ "." ++ pad2 rule)
    | none =>
      if path ≠ [] then some (format_rule_number sec none rule path)
      else some (sec ++ "." ++ pad2 rule)

/-! ## Intro heuristic -/

/-- The fixed editorial lead-in phrasings tested on the first nested item's
lowered, link-stripped text. -/
def isIntroTextPattern (t : String) : Bool :=
  pyIn "this section" t || pyIn "lists all" t ||
  (pyIn "play at" t && pyIn "anytime" t && (pyIn "options" t || pyIn "one of these" t)) ||
  (pyIn "on your" t && pyIn "action" t && pyIn "adhere" t) ||
  pyStarts t "play at anytime"

/-- Python `skip_first_nested`: the first nested item has no named anchor and its
flattened link-stripped text matches an editorial lead-in phrasing.  `anc` is
the ancestor-style list of the nested items themselves. -/
def computeSkipFirst (anc : List String) (l : NodeList) : Bool :=
  match firstLi l with
  | none => false
  | some f =>
    !(hasNamedA f) && isIntroTextPattern (pyLower (get_text_content anc true true f))

/-! ## Rule numbering engine (`process_li`) -/

mutual
/-- Python `process_li(li, section, subsection, rule_num, subrule_path, is_intro)`.
The call sites only ever pass `Tag`s, so a text leaf yields no lines. -/
def process_li (anc : List String) (li : Node) (sec : String) (ss : Option String)
    (rule : Nat) (path : List Nat) (isIntro : Bool) : List String :=
  match li with
  | .text _ => []
  | .elem t st cl a ch =>
    if is_hidden anc (.elem t st cl a ch) then []
    else if cl.contains "notclassic" then []
    else
      let rn := ruleNumberOf isIntro sec ss rule path
      let txt := get_text_content anc false true (.elem t st cl a ch)
      let cr := extract_cross_references anc (.elem t st cl a ch)
      let txt2 := if cr = "" then txt else txt ++ " " ++ cr
      let base : List String :=
        if txt2 = "" then []
        else
          match rn with
          | some n => [n ++ " " ++ txt2]
          | none => [txt2]
      base ++ scanOl (st :: anc) sec ss rule path ch

/-- Scan the item's direct children for the first `ol` (its nested list) and
process that list's items; a hidden nested list contributes nothing. -/
def scanOl (anc : List String) (sec : String) (ss : Option String)
    (rule : Nat) (path : List Nat) (l : NodeList) : List String :=
  match l with
  | .nil => []
  | .cons c rest =>
    match c with
    | .text _ => scanOl anc sec ss rule path rest
    | .elem ot ost ocl oa och =>
      if ot = "ol" then
        if is_hidden anc (.elem ot ost ocl oa och) then []
        else
          nestedLoop (ost :: anc) sec ss rule path
            (computeSkipFirst (ost :: anc) och) och 0 0
      else scanOl anc sec ss rule path rest

/-- The loop over the nested list's items.  `idx` is `enumerate`'s position
among the `li` children (hidden ones included); `nidx` is `nested_idx`, the
counter consumed only by visible non-skipped items. -/
def nestedLoop (anc : List String) (sec : String) (ss : Option String)
    (rule : Nat) (path : List Nat) (skipF : Bool)
    (l : NodeList) (idx nidx : Nat) : List String :=
  match l with
  | .nil => []
  | .cons it rest =>
    if it.tagOf = "li" then
      if is_hidden anc it then
        nestedLoop anc sec ss rule path skipF rest (idx + 1) nidx
      else if skipF && idx == 0 then
        process_li anc it sec ss rule path true ++
          nestedLoop anc sec ss rule path skipF rest (idx + 1) nidx
      else
        process_li anc it sec ss rule (path ++ [nidx + 1]) (it.classesOf.contains "intro") ++
          nestedLoop anc sec ss rule path skipF rest (idx + 1) (nidx + 1)
    else nestedLoop anc sec ss rule path skipF rest idx nidx
end

/-! ## Section processor (`process_section`) -/

/-- Python `re.sub(r'^1\.00\.\d+', repl, line)`: replace the anchored match, if any. -/
def subSupp (repl : String) (line : String) : String :=
  match line.data with
  | '1' :: '.' :: '0' :: '0' :: '.' :: rest =>
    if (rest.takeWhile isPyDigit).isEmpty then line
    else ⟨repl.data ++ rest.dropWhile isPyDigit⟩
  | _ => line

/-- The per-line renumbering applied to suppressed-container children under
section "1" (only lines starting with "1." are touched). -/
def fixSuppLine (idx : Nat) (line : String) : String :=
  if pyStarts line "1." then
    if idx = 0 then subSupp "1.00.00" line
    else subSupp ("1.00." ++ pad2 idx) line
  else line

/-- The loop over a suppressed-numbering container's unpacked children.
`idx` is `enumerate`'s position among the `li` children, hidden included. -/
def suppLoop (anc : List String) (secn : String) (l : NodeList) (idx : Nat) : List String :=
  match l with
  | .nil => []
  | .cons it rest =>
    if it.tagOf = "li" then
      if is_hidden anc it then suppLoop anc secn rest (idx + 1)
      else
        let isIntro := idx == 0 && it.classesOf.contains "intro"
        (if secn = "1" then
           (process_li anc it secn (some "00") idx [] isIntro).map (fixSuppLine idx)
         else
           process_li anc it secn none idx [] isIntro)
        ++ suppLoop anc secn rest (idx + 1)
    else suppLoop anc secn rest idx

/-- The loop over a subsection header's nested items: `idx` is `enumerate`'s
position, `nc` the `nested_counter` consumed only by regular items. -/
def subsecLoop (anc : List String) (secn ssn : String) (skipF : Bool)
    (l : NodeList) (idx nc : Nat) : List String :=
  match l with
  | .nil => []
  | .cons it rest =>
    if it.tagOf = "li" then
      if is_hidden anc it then subsecLoop anc secn ssn skipF rest (idx + 1) nc
      else if skipF && idx == 0 then
        process_li anc it secn (some ssn) 0 [] true ++
          subsecLoop anc secn ssn skipF rest (idx + 1) nc
      else if it.classesOf.contains "intro" then
        process_li anc it secn (some ssn) 0 [] true ++
          subsecLoop anc secn ssn skipF rest (idx + 1) nc
      else
        process_li anc it secn (some ssn) (nc + 1) [] false ++
          subsecLoop anc secn ssn skipF rest (idx + 1) (nc + 1)
    else subsecLoop anc secn ssn skipF rest idx nc

/-- The `supress_number` branch of the top-level loop. -/
def suppLines (anc : List String) (secn : String) (item : Node) : List String :=
  match findOlChild item.kidsOf with
  | none => []
  | some ol =>
    if is_hidden (item.styleOf :: anc) ol then []
    else suppLoop (ol.styleOf :: item.styleOf :: anc) secn ol.kidsOf 0

/-- The `subsection_header` branch of the top-level loop: emit the
`## <section>.<subsection> <title>` heading and process the nested list. -/
def subsecLines (anc : List String) (secn : String) (item : Node) (ctr : Nat) : List String :=
  match findDescTag anc "h3" item with
  | none => []
  | some h3 =>
    let title := get_text_content h3.1 true true h3.2
    let ssn := pad2 ctr
    let head := "\n## " ++ secn ++ "." ++ ssn ++ " " ++ title ++ "\n"
    match findOlChild item.kidsOf with
    | none => [head]
    | some ol =>
      if is_hidden (item.styleOf :: anc) ol then [head]
      else
        let iAnc := ol.styleOf :: item.styleOf :: anc
        head :: subsecLoop iAnc secn ssn (computeSkipFirst iAnc ol.kidsOf) ol.kidsOf 0 0

/-- The loop over the main list's top-level items.  `ctr` is `item_counter`,
`startn` the list's declared start. -/
def topLoop (anc : List String) (secn : String) (startn : Nat)
    (l : NodeList) (ctr : Nat) : List String :=
  match l with
  | .nil => []
  | .cons item rest =>
    if item.tagOf = "li" then
      if is_hidden anc item then topLoop anc secn startn rest ctr
      else
        let cl := item.classesOf
        if cl.contains "supress_number" then
          suppLines anc secn item ++ topLoop anc secn startn rest ctr
        else if cl.contains "subsection_header" then
          subsecLines anc secn item ctr ++ topLoop anc secn startn rest (ctr + 1)
        else
          (if cl.contains "intro" && secn == "0" && ctr == startn then
             process_li anc item secn none 0 [] true
           else
             process_li anc item secn none ctr [] (cl.contains "intro"))
          ++ topLoop anc secn startn rest (ctr + 1)
    else topLoop anc secn startn rest ctr

/-- The section's `# <title>` heading line, when an `h2` exists. -/
def sectionHeading (anc : List String) (sec : Node) : List String :=
  match findDescTag anc "h2" sec with
  | none => []
  | some h2 => ["# " ++ get_text_content h2.1 true true h2.2 ++ "\n"]

/-- Python `int(start_attr) if start_attr and start_attr.isdigit() else 1`. -/
def startNumOf : Option String → Nat
  | none => 1
  | some s => if s.length > 0 && s.data.all isPyDigit then natOfDigits s.data else 1

/-- Python `process_section(section, section_num)`. -/
def process_section (anc : List String) (sec : Node) (secn : String) : String :=
  let lines := sectionHeading anc sec
  match findDescTag anc "ol" sec with
  | none => joinWith "\n" lines
  | some olp =>
    if is_hidden olp.1 olp.2 then joinWith "\n" lines
    else
      let startn := startNumOf (getAttr olp.2.attrsOf "start")
      joinWith "\n"
        (lines ++ topLoop (olp.2.styleOf :: olp.1) secn startn olp.2.kidsOf startn)

/-! ## Concrete document builders used by the theorems -/

/-- A plain visible list item holding a single text leaf. -/
def mkLi (s : String) : Node :=
  Node.elem "li" "" [] [] (NodeList.cons (Node.text s) NodeList.nil)

def mkLis : List String → NodeList
  | [] => NodeList.nil
  | s :: rest => NodeList.cons (mkLi s) (mkLis rest)

/-! ## Spec-side definitions and concrete documents used by the theorems -/

/-- All-whitespace character lists. -/
def AllWs (l : List Char) : Prop := ∀ c ∈ l, isPyWs c = true

/-- A style string (already lowered) contains `display`, optional whitespace,
a colon, optional whitespace, `none` — the claim's pattern. -/
def DNDecomp (l : List Char) : Prop :=
  ∃ p w1 w2 q, AllWs w1 ∧ AllWs w2 ∧
    l = p ++ ("display".data ++ (w1 ++ ':' :: (w2 ++ ("none".data ++ q))))

/-- The undeduplicated sequence of normalized candidate references, in
document (pre-order) link order. -/
def crossRefCandidates (anc : List String) (el : Node) : List String :=
  (annoLinks anc el).filterMap crossRefCandidate

/-- Spec-side formulation of first-occurrence deduplication: keep the head,
drop its later duplicates, leave the order of the rest untouched. -/
def dedupFirstSpec : List String → List String
  | [] => []
  | a :: l => a :: dedupFirstSpec (l.filter (fun x => x != a))
termination_by l => l.length
decreasing_by
  simp only [List.length_cons]
  exact Nat.lt_succ_of_le (List.length_filter_le _ _)

/-- The loop of `extract_cross_references` with an explicit `seen` set. -/
def dedupSeen : List String → List String → List String
  | [], _ => []
  | r :: rest, seen =>
    if seen.contains r then dedupSeen rest seen
    else r :: dedupSeen rest (r :: seen)

/-- The amended four-case intro numbering scheme, stated from the claim's
side: under a subsection, empty path and rule 0 give `<sec>.<ss>.00`; empty
path and a positive rule give `<sec>.<ss>.<rule>.00`; a non-empty path gives
the prefix through the whole path with `"00"` appended after it; without a
subsection the number is the sentinel `"0.00"` exactly when the section is
`"0"` and the rule counter is 0, and absent otherwise. -/
def introNumberSpec (sec : String) (ss : Option String) (rule : Nat)
    (path : List Nat) : Option String :=
  match ss with
  | some s =>
    if path = [] then
      if rule = 0 then some (sec ++ "." ++ s ++ ".00")
      else some (sec ++ "." ++ s ++ "." ++ pad2 rule ++ ".00")
    else some (joinWith "." ([sec, s, pad2 rule] ++ path.map pad2 ++ ["00"]))
  | none => if sec = "0" ∧ rule = 0 then some "0.00" else none

/-- The two-level nesting example of the claim: an item at section "3",
subsection "01", rule 11, with a nested child and a further-nested grandchild. -/
def c6doc : Node :=
  Node.elem "li" "" [] []
    (NodeList.cons (Node.text "Setup")
      (NodeList.cons
        (Node.elem "ol" "" [] []
          (NodeList.cons
            (Node.elem "li" "" [] []
              (NodeList.cons (Node.text "Child")
                (NodeList.cons (Node.elem "ol" "" [] [] (mkLis ["Grand"])) NodeList.nil)))
            NodeList.nil))
        NodeList.nil))

/-- A visible list item with a leading text and one nested ordered list. -/
def mkParent (t : String) (items : NodeList) : Node :=
  Node.elem "li" "" [] []
    (NodeList.cons (Node.text t)
      (NodeList.cons (Node.elem "ol" "" [] [] items) NodeList.nil))

/-- A hidden list item (for the counterexample documents). -/
def hidLi (s : String) : Node :=
  Node.elem "li" "display:none" [] [] (NodeList.cons (Node.text s) NodeList.nil)

/-- The C2 counterexample document: a suppressed-numbering container in
section "1" whose middle child is hidden. -/
def c2doc : Node :=
  Node.elem "section" "" [] []
    (NodeList.cons
      (Node.elem "ol" "" [] []
        (NodeList.cons
          (Node.elem "li" "" ["supress_number"] []
            (NodeList.cons
              (Node.elem "ol" "" [] []
                (NodeList.cons (mkLi "Alpha")
                  (NodeList.cons (hidLi "Ghost")
                    (NodeList.cons (mkLi "Beta") NodeList.nil))))
              NodeList.nil))
          NodeList.nil))
      NodeList.nil)

/-- A visible list item carrying the explicit `intro` marker class. -/
def introLi (s : String) : Node :=
  Node.elem "li" "" ["intro"] [] (NodeList.cons (Node.text s) NodeList.nil)

/-- Spec-side rendering of a suppressed container's children: the `k`-th
visible child (positional index) is numbered `<prefix><pad2 k>`. -/
def suppSpecLines (pre2 : String) : List String → Nat → List String
  | [], _ => []
  | t :: ts, k => (pre2 ++ pad2 k ++ " " ++ clean_text t) :: suppSpecLines pre2 ts (k + 1)

/-- The C4 counterexample document: a suppressed container in section "1"
with a hidden second child among four. -/
def c4doc : Node :=
  Node.elem "section" "" [] []
    (NodeList.cons
      (Node.elem "ol" "" [] []
        (NodeList.cons
          (Node.elem "li" "" ["supress_number"] []
            (NodeList.cons
              (Node.elem "ol" "" [] []
                (NodeList.cons (mkLi "One")
                  (NodeList.cons (hidLi "Gap")
                    (NodeList.cons (mkLi "Two")
                      (NodeList.cons (mkLi "Three") NodeList.nil)))))
              NodeList.nil))
          NodeList.nil))
      NodeList.nil)

def startAttrs : Option String → List (String × String)
  | none => []
  | some s => [("start", s)]

/-- A section holding one main list with an optional `start` attribute and
plain items. -/
def mkSection (a : Option String) (ts : List String) : Node :=
  Node.elem "section" "" [] []
    (NodeList.cons (Node.elem "ol" "" [] (startAttrs a) (mkLis ts)) NodeList.nil)

/-- Spec-side rendering of a plain top-level list: the counter starts at `c`
and each line is `<section>.<pad2 counter> <text>`. -/
def numberedFrom (secn : String) : List String → Nat → List String
  | [], _ => []
  | t :: ts, c => (secn ++ "." ++ pad2 c ++ " " ++ clean_text t) :: numberedFrom secn ts (c + 1)

/-- A section whose only list is hidden. -/
def hiddenOlSec : Node :=
  Node.elem "section" "" [] []
    (NodeList.cons (Node.elem "ol" "display:none" [] [] (mkLis ["X"])) NodeList.nil)

/-! ## Sanity checks on concrete inputs -/

example : styleDN "display:none" = true := by decide
example : styleDN "color: red; DISPLAY :  None" = true := by decide
example : styleDN "display_inline: nonempty" = false := by decide
example : styleDN "display = none" = false := by decide
example : is_hidden ["display:none"] (Node.elem "li" "" [] [] NodeList.nil) = true := by decide

example :
    get_text_content [] false true
      (Node.elem "li" "" [] []
        (NodeList.cons (Node.text "  Hello ")
          (NodeList.cons (Node.elem "b" "" [] [] (NodeList.cons (Node.text " world ") NodeList.nil))
            (NodeList.cons (Node.elem "ol" "" [] [] (NodeList.cons (Node.text "skipme") NodeList.nil))
              NodeList.nil)))) = "Hello world" := by decide

example :
    get_text_content [] false true
      (Node.elem "li" "display:none" [] [] (NodeList.cons (Node.text "x") NodeList.nil)) = "" := rfl

example : findNumeral "see ab+2.01.03 end".data = some "+2.01.03" := by decide
example : findNumeral "rule 3.01, then".data = some "3.01" := by decide
example : findNumeral "1..2 nothing".data = none := by decide

example : ruleNumberOf false "1" (some "06") 5 [4] = some "1.06.05.04" := by decide
example : ruleNumberOf true "3" (some "01") 11 [] = some "3.01.11.00" := by decide
example : ruleNumberOf true "3" (some "01") 11 [5] = some "3.01.11.05.00" := by decide
example : ruleNumberOf true "2" none 3 [] = none := by decide
example : ruleNumberOf true "0" none 0 [] = some "0.00" := by decide

example :
    process_li [] (mkLi "Shuffle the deck") "0" none 1 [1] false =
      ["0.01.01 Shuffle the deck"] := by decide

example :
    process_li []
      (Node.elem "li" "" [] []
        (NodeList.cons (Node.text "Setup the game")
          (NodeList.cons (Node.elem "ol" "" [] [] (mkLis ["Shuffle the deck"])) NodeList.nil)))
      "0" none 1 [] false =
      ["0.01 Setup the game", "0.01.01 Shuffle the deck"] := by decide

/-! ## Generic helper lemmas -/

theorem strExt {a b : String} (h : a.data = b.data) : a = b := by
  cases a; cases b; exact congrArg String.mk h

theorem strData_append (a b : String) : (a ++ b).data = a.data ++ b.data := rfl

theorem strAppend_nil (a : String) : a ++ "" = a :=
  strExt (by simp [strData_append])

theorem strAppend_assoc (a b c : String) : a ++ b ++ c = a ++ (b ++ c) :=
  strExt (by simp [strData_append])

/-- Structural induction over `NodeList` alone. -/
theorem nodeListInd (Q : NodeList → Prop) (hn : Q NodeList.nil)
    (hc : ∀ n l, Q l → Q (NodeList.cons n l)) : ∀ l, Q l
  | NodeList.nil => hn
  | NodeList.cons n l => hc n l (nodeListInd Q hn hc l)

mutual
/-- Mutual structural induction over `Node` / `NodeList`. -/
theorem nodeInd (P : Node → Prop) (Q : NodeList → Prop)
    (ht : ∀ s, P (Node.text s))
    (he : ∀ t st cl a ch, Q ch → P (Node.elem t st cl a ch))
    (hn : Q NodeList.nil) (hc : ∀ n l, P n → Q l → Q (NodeList.cons n l)) : ∀ n, P n
  | Node.text s => ht s
  | Node.elem t st cl a ch => he t st cl a ch (nodeIndList P Q ht he hn hc ch)

theorem nodeIndList (P : Node → Prop) (Q : NodeList → Prop)
    (ht : ∀ s, P (Node.text s))
    (he : ∀ t st cl a ch, Q ch → P (Node.elem t st cl a ch))
    (hn : Q NodeList.nil) (hc : ∀ n l, P n → Q l → Q (NodeList.cons n l)) : ∀ l, Q l
  | NodeList.nil => hn
  | NodeList.cons n l =>
    hc n l (nodeInd P Q ht he hn hc n) (nodeIndList P Q ht he hn hc l)
end

/-! ## C7: correctness of the display-none matcher -/

theorem isPrefixOf_exists (p : List Char) : ∀ l, p.isPrefixOf l = true ↔ ∃ q, l = p ++ q := by
  induction p with
  | nil => intro l; simp [List.isPrefixOf]
  | cons a as ih =>
    intro l
    cases l with
    | nil => simp [List.isPrefixOf]
    | cons b bs =>
      simp only [List.isPrefixOf, Bool.and_eq_true, beq_iff_eq, ih, List.cons_append,
        List.cons.injEq]
      constructor
      · rintro ⟨h1, q, h2⟩; exact ⟨q, h1.symm, h2⟩
      · rintro ⟨q, h1, h2⟩; exact ⟨h1.symm, q, h2⟩

theorem dropLit_some (p : List Char) : ∀ l r, dropLit p l = some r ↔ l = p ++ r := by
  induction p with
  | nil => intro l r; simp [dropLit, eq_comm]
  | cons a as ih =>
    intro l r
    cases l with
    | nil => simp [dropLit]
    | cons b bs =>
      by_cases h : b = a
      · subst h; simp [dropLit, ih]
      · simp [dropLit, h]

theorem dropWhile_all_cons (p : Char → Bool) (w : List Char) (c : Char) (t : List Char)
    (hw : ∀ x ∈ w, p x = true) (hc : p c = false) :
    (w ++ c :: t).dropWhile p = c :: t := by
  induction w with
  | nil => simp [List.dropWhile, hc]
  | cons a as ih =>
    have ha : p a = true := hw a (by simp)
    simpa [List.dropWhile, ha] using ih (fun x hx => hw x (by simp [hx]))

theorem takeWhile_pred (p : Char → Bool) : ∀ (l : List Char) c, c ∈ l.takeWhile p → p c = true := by
  intro l
  induction l with
  | nil => intro c hc; simp [List.takeWhile] at hc
  | cons a as ih =>
    intro c hc
    rw [List.takeWhile_cons] at hc
    by_cases ha : p a = true
    · rw [if_pos ha] at hc
      rcases List.mem_cons.1 hc with h | h
      · exact h ▸ ha
      · exact ih c h
    · rw [if_neg ha] at hc
      simp at hc

theorem matchDNAt_iff (l : List Char) :
    matchDNAt l = true ↔
      ∃ w1 w2 q, AllWs w1 ∧ AllWs w2 ∧
        l = "display".data ++ (w1 ++ ':' :: (w2 ++ ("none".data ++ q))) := by
  constructor
  · intro h
    unfold matchDNAt at h
    split at h
    · cases h
    · rename_i r1 hd
      split at h
      · rename_i r3 hr2
        obtain ⟨q, hq⟩ := (isPrefixOf_exists _ _).1 h
        have hl : l = "display".data ++ r1 := (dropLit_some _ _ _).1 hd
        have hr1 : r1.takeWhile isPyWs ++ ':' :: r3 = r1 := by
          rw [← hr2]; exact List.takeWhile_append_dropWhile isPyWs r1
        have hr3 : r3.takeWhile isPyWs ++ ("none".data ++ q) = r3 := by
          rw [← hq]; exact List.takeWhile_append_dropWhile isPyWs r3
        refine ⟨r1.takeWhile isPyWs, r3.takeWhile isPyWs, q,
          fun c hc => takeWhile_pred _ _ c hc, fun c hc => takeWhile_pred _ _ c hc, ?_⟩
        rw [hr3, hr1]
        exact hl
      · cases h
  · rintro ⟨w1, w2, q, hw1, hw2, rfl⟩
    have h1 : dropLit "display".data
        ("display".data ++ (w1 ++ ':' :: (w2 ++ ("none".data ++ q)))) =
        some (w1 ++ ':' :: (w2 ++ ("none".data ++ q))) :=
      (dropLit_some _ _ _).2 rfl
    have h2 : List.dropWhile isPyWs (w1 ++ ':' :: (w2 ++ ("none".data ++ q))) =
        ':' :: (w2 ++ ("none".data ++ q)) :=
      dropWhile_all_cons isPyWs w1 ':' _ hw1 (by decide)
    have h3 : w2 ++ ("none".data ++ q) = w2 ++ 'n' :: ("one".data ++ q) := rfl
    have h4 : List.dropWhile isPyWs (w2 ++ 'n' :: ("one".data ++ q)) =
        'n' :: ("one".data ++ q) :=
      dropWhile_all_cons isPyWs w2 'n' _ hw2 (by decide)
    simp only [matchDNAt, h1, h2]
    rw [h3, h4]
    exact (isPrefixOf_exists "none".data ('n' :: ("one".data ++ q))).2 ⟨q, rfl⟩

theorem scanDN_iff : ∀ l, scanDN l = true ↔ DNDecomp l := by
  intro l
  induction l with
  | nil =>
    simp only [scanDN, DNDecomp, Bool.false_eq_true, false_iff]
    rintro ⟨p, w1, w2, q, -, -, h⟩
    exact absurd h.symm (by simp)
  | cons c rest ih =>
    simp only [scanDN, Bool.or_eq_true, matchDNAt_iff, ih, DNDecomp]
    constructor
    · rintro (⟨w1, w2, q, h1, h2, h3⟩ | ⟨p, w1, w2, q, h1, h2, h3⟩)
      · exact ⟨[], w1, w2, q, h1, h2, by simpa using h3⟩
      · exact ⟨c :: p, w1, w2, q, h1, h2, by simp [h3]⟩
    · rintro ⟨p, w1, w2, q, h1, h2, h3⟩
      cases p with
      | nil => exact Or.inl ⟨w1, w2, q, h1, h2, by simpa using h3⟩
      | cons x p2 =>
        rw [List.cons_append, List.cons.injEq] at h3
        exact Or.inr ⟨p2, w1, w2, q, h1, h2, h3.2⟩

theorem containsSub_self_append (n b : List Char) : containsSub n (n ++ b) = true := by
  cases n with
  | nil =>
    cases b with
    | nil => rfl
    | cons x xs => simp [containsSub, List.isPrefixOf]
  | cons x xs =>
    have h : (x :: xs).isPrefixOf (x :: xs ++ b) = true :=
      (isPrefixOf_exists _ _).2 ⟨b, by simp⟩
    simp [containsSub, h]

theorem containsSub_append_left (n a b : List Char) : containsSub n (a ++ (n ++ b)) = true := by
  induction a with
  | nil => simpa using containsSub_self_append n b
  | cons c a2 ih =>
    have h : containsSub n (c :: (a2 ++ (n ++ b))) =
        (n.isPrefixOf (c :: (a2 ++ (n ++ b))) || containsSub n (a2 ++ (n ++ b))) := rfl
    rw [List.cons_append, h, ih, Bool.or_true]

theorem styleDN_iff (s : String) : styleDN s = true ↔ DNDecomp (pyLower s).data := by
  unfold styleDN
  simp only [Bool.and_eq_true, scanDN_iff]
  constructor
  · rintro ⟨-, h⟩; exact h
  · intro h
    refine ⟨⟨?_, ?_⟩, h⟩
    · obtain ⟨p, w1, w2, q, -, -, hl⟩ := h
      rw [hl]; exact containsSub_append_left _ _ _
    · obtain ⟨p, w1, w2, q, -, -, hl⟩ := h
      rw [hl]
      have he : p ++ ("display".data ++ (w1 ++ ':' :: (w2 ++ ("none".data ++ q)))) =
          (p ++ "display".data ++ w1 ++ ':' :: w2) ++ ("none".data ++ q) := by
        simp [List.append_assoc]
      rw [he]; exact containsSub_append_left _ _ _

/-- C7 (amended): `is_hidden` holds on an element iff the element's style or
some ancestor's style matches `display`, optional whitespace, `:`, optional
whitespace, `none` (case-insensitively); the exclusion-marker class plays no
role in `is_hidden` itself — it is tested separately at each call site. -/
theorem c7_is_hidden_characterization (anc : List String) (t st : String)
    (cl : List String) (a : List (String × String)) (ch : NodeList) :
    is_hidden anc (Node.elem t st cl a ch) = true ↔
      (DNDecomp (pyLower st).data ∨ ∃ s ∈ anc, DNDecomp (pyLower s).data) := by
  simp only [is_hidden, Bool.or_eq_true, List.any_eq_true, styleDN_iff]

/-- C7 counterexample: a node carrying the literal exclusion marker class
`notclassic` (and no `display:none` style anywhere) is not reported hidden by
`is_hidden`, contradicting the claim's "or N's class set contains the literal
exclusion marker" disjunct. -/
theorem c7_counterexample :
    (Node.classesOf (Node.elem "li" "" ["notclassic"] [] NodeList.nil)).contains
        "notclassic" = true ∧
      is_hidden [] (Node.elem "li" "" ["notclassic"] [] NodeList.nil) = false := by
  decide

/-! ## C10: the skip_links parameter has no effect -/

mutual
theorem gtc_skipLinks_irrel : ∀ (n : Node) (anc : List String) (e b : Bool),
    get_text_content anc b e n = get_text_content anc true e n
  | Node.text s, anc, e, b => rfl
  | Node.elem t st cl a ch, anc, e, b => by
    simp only [get_text_content]
    rw [textParts_skipLinks_irrel ch]

theorem textParts_skipLinks_irrel : ∀ (l : NodeList) (anc : List String) (e b : Bool),
    textParts anc b e l = textParts anc true e l
  | NodeList.nil, anc, e, b => rfl
  | NodeList.cons (Node.text s) rest, anc, e, b => by
    simp only [textParts]
    rw [textParts_skipLinks_irrel rest]
  | NodeList.cons (Node.elem ct cst ccl ca cch) rest, anc, e, b => by
    simp only [textParts]
    rw [textParts_skipLinks_irrel rest]
    congr 1
    by_cases h1 : (e && (ct == "ol" || ct == "ul")) = true
    · rw [if_pos h1, if_pos h1]
    · rw [if_neg h1, if_neg h1]
      by_cases h2 : ct = "a"
      · rw [if_pos h2, if_pos h2]
        cases b with
        | true => rfl
        | false => simp [ite_self]
      · rw [if_neg h2, if_neg h2]
        by_cases h3 : (ct = "p" && ccl.contains "example") = true
        · rw [if_pos h3, if_pos h3]
        · rw [if_neg h3, if_neg h3]
          by_cases h4 : (ct = "b" || ct = "strong" || ct = "i" || ct = "em" || ct = "span") = true
          · rw [if_pos h4, if_pos h4,
              gtc_skipLinks_irrel (Node.elem ct cst ccl ca cch) anc e b]
          · rw [if_neg h4, if_neg h4,
              gtc_skipLinks_irrel (Node.elem ct cst ccl ca cch) anc e b]
end

/-- C10: for every node and every value of the exclude-nested-lists flag,
`get_text_content` returns the same string whether `skip_links` is true or
false — every hyperlink child is recursed with `skip_links` forced true in all
of its handling branches, so the parameter never influences the output. -/
theorem c10_skip_links_no_effect : ∀ (n : Node) (anc : List String) (e b1 b2 : Bool),
    get_text_content anc b1 e n = get_text_content anc b2 e n := by
  intro n anc e b1 b2
  rw [gtc_skipLinks_irrel n anc e b1, gtc_skipLinks_irrel n anc e b2]

/-! ## C8: cross-reference deduplication and ordering -/

theorem mem_dedupFirstSpec : ∀ l x, x ∈ dedupFirstSpec l → x ∈ l := by
  intro l
  induction l using dedupFirstSpec.induct with
  | case1 => intro x hx; simp [dedupFirstSpec] at hx
  | case2 a l ih =>
    intro x hx
    rw [dedupFirstSpec] at hx
    rcases List.mem_cons.1 hx with h | h
    · exact h ▸ List.mem_cons_self a l
    · exact List.mem_cons_of_mem a (List.mem_of_mem_filter (ih x h))

theorem nodup_dedupFirstSpec : ∀ l, (dedupFirstSpec l).Nodup := by
  intro l
  induction l using dedupFirstSpec.induct with
  | case1 => simp [dedupFirstSpec]
  | case2 a l ih =>
    rw [dedupFirstSpec]
    refine List.nodup_cons.2 ⟨fun hmem => ?_, ih⟩
    have := List.of_mem_filter (mem_dedupFirstSpec _ a hmem)
    simp at this

theorem extractLoop_eq_dedupSeen :
    ∀ (ps : List (List String × Node)) (seen : List String),
      extractLoop ps seen = dedupSeen (ps.filterMap crossRefCandidate) seen := by
  intro ps
  induction ps with
  | nil => intro seen; rfl
  | cons p rest ih =>
    intro seen
    cases hc : crossRefCandidate p with
    | none =>
      simp only [extractLoop, hc, List.filterMap_cons]
      exact ih seen
    | some r =>
      simp only [extractLoop, hc, List.filterMap_cons, dedupSeen]
      by_cases hs : seen.contains r = true
      · simp only [if_pos hs]; exact ih seen
      · simp only [if_neg hs]; rw [ih (r :: seen)]

theorem dedupSeen_eq_dedupFirstSpec :
    ∀ (l seen : List String),
      dedupSeen l seen = dedupFirstSpec (l.filter (fun x => !(seen.contains x))) := by
  intro l
  induction l with
  | nil => intro seen; simp [dedupSeen, dedupFirstSpec]
  | cons r rest ih =>
    intro seen
    rw [dedupSeen, List.filter_cons]
    by_cases hs : seen.contains r = true
    · have hnot : ¬ ((!seen.contains r) = true) := by rw [hs]; decide
      rw [if_pos hs, if_neg hnot]
      exact ih seen
    · have hf : seen.contains r = false := by
        revert hs; cases seen.contains r <;> simp
      have hb : (!seen.contains r) = true := by rw [hf]; rfl
      rw [if_neg hs, if_pos hb, ih (r :: seen), dedupFirstSpec, List.filter_filter]
      congr 2
      apply List.filter_congr
      intro x _
      simp only [List.contains_cons, Bool.not_or, bne]

theorem crossRefsList_eq_dedupFirstSpec (anc : List String) (el : Node) :
    crossRefsList anc el = dedupFirstSpec (crossRefCandidates anc el) := by
  rw [crossRefsList, extractLoop_eq_dedupSeen, dedupSeen_eq_dedupFirstSpec, crossRefCandidates]
  congr 1
  rw [List.filter_eq_self]
  intro a _
  rfl

/-- C8: the string returned by `extract_cross_references` is the space-join
of the first-occurrence deduplication of the normalized candidate references
in document order — so it never holds two references with the same normalized
signed numeral, and the first occurrence wins with later duplicates dropped
without disturbing the order of the rest. -/
theorem c8_crossrefs_dedup_first_occurrence : ∀ (anc : List String) (el : Node),
    extract_cross_references anc el =
        joinWith " " (dedupFirstSpec (crossRefCandidates anc el)) ∧
      (dedupFirstSpec (crossRefCandidates anc el)).Nodup := by
  intro anc el
  refine ⟨?_, nodup_dedupFirstSpec _⟩
  rw [extract_cross_references, crossRefsList_eq_dedupFirstSpec]
  cases h : dedupFirstSpec (crossRefCandidates anc el) with
  | nil => rfl
  | cons x xs => rfl

/-! ## Helper lemmas about plain list items -/

theorem styleDN_empty : styleDN "" = false := rfl

theorem gtc_plain_li (anc : List String) (b e : Bool) (s : String)
    (hanc : anc.any styleDN = false) :
    get_text_content anc b e
        (Node.elem "li" "" [] [] (NodeList.cons (Node.text s) NodeList.nil)) =
      clean_text s := by
  have hh : is_hidden anc
      (Node.elem "li" "" [] [] (NodeList.cons (Node.text s) NodeList.nil)) = false := by
    simp only [is_hidden, hanc, styleDN_empty]
    rfl
  have hcn : (([] : List String).contains "notclassic") = false := rfl
  simp only [get_text_content, hh, hcn, Bool.false_eq_true, if_false, textParts, joinParts]
  rw [strAppend_nil]

theorem gtc_mkLi (anc : List String) (b e : Bool) (s : String)
    (hanc : anc.any styleDN = false) :
    get_text_content anc b e (mkLi s) = clean_text s :=
  gtc_plain_li anc b e s hanc

theorem xrefs_plain_li (anc : List String) (s : String) :
    extract_cross_references anc
      (Node.elem "li" "" [] [] (NodeList.cons (Node.text s) NodeList.nil)) = "" := rfl

/-- What `process_li` emits for a plain visible one-text list item:
exactly one line, numbered by `ruleNumberOf`. -/
theorem process_li_mkLi (anc : List String) (sec : String) (ss : Option String)
    (rule : Nat) (path : List Nat) (b : Bool) (s : String)
    (hanc : anc.any styleDN = false) (hs : clean_text s ≠ "") :
    process_li anc (mkLi s) sec ss rule path b =
      [match ruleNumberOf b sec ss rule path with
       | some n => n ++ " " ++ clean_text s
       | none => clean_text s] := by
  have hh : is_hidden anc
      (Node.elem "li" "" [] [] (NodeList.cons (Node.text s) NodeList.nil)) = false := by
    simp only [is_hidden, hanc, styleDN_empty]
    rfl
  have htxt := gtc_plain_li anc false true s hanc
  have hx := xrefs_plain_li anc s
  have hcn : (([] : List String).contains "notclassic") = false := rfl
  simp only [mkLi, process_li, hh, hcn, Bool.false_eq_true, if_false, htxt, hx,
    if_pos rfl, scanOl, List.append_nil]
  simp only [ite_true, if_neg hs]
  cases ruleNumberOf b sec ss rule path with
  | none => rfl
  | some n => rfl

/-! ## C1: the intro numbering scheme -/

theorem ruleNumberOf_intro (sec : String) (ss : Option String) (rule : Nat)
    (path : List Nat) :
    ruleNumberOf true sec ss rule path = introNumberSpec sec ss rule path := by
  cases ss with
  | none => rfl
  | some s =>
    simp only [ruleNumberOf, introNumberSpec]
    by_cases hp : path = []
    · simp only [hp, ne_eq, not_true_eq_false, if_false, if_true, ite_true, ite_false]
      by_cases hr : rule = 0
      · simp [hr]
      · simp [hr, Nat.pos_of_ne_zero hr]
    · simp [hp]

/-- C1 (amended): a plain intro item is emitted with the amended four-case
scheme `introNumberSpec` (and bare text when that scheme yields no number):
with a subsection, an empty path numbers `<sec>.<ss>.00` at rule 0 and
`<sec>.<ss>.<rule>.00` at a positive rule, and a non-empty path numbers the
prefix through the whole given path with `00` appended; with no subsection the
item is numbered `0.00` exactly when the section is `"0"` and the rule counter
is 0, and is unnumbered otherwise. -/
theorem c1_intro_numbering (sec : String) (ss : Option String) (rule : Nat)
    (path : List Nat) (s : String) (hs : clean_text s ≠ "") :
    process_li [] (mkLi s) sec ss rule path true =
      [match introNumberSpec sec ss rule path with
       | some n => n ++ " " ++ clean_text s
       | none => clean_text s] := by
  rw [process_li_mkLi [] sec ss rule path true s rfl hs, ruleNumberOf_intro]

/-- C1 witness: a nested intro under subsection "01" of section "3" at rule
11 with path `[5]` is numbered `3.01.11.05.00`. -/
theorem c1_intro_numbering_witness :
    process_li [] (mkLi "Hi") "3" (some "01") 11 [5] true = ["3.01.11.05.00 Hi"] := by
  rw [c1_intro_numbering "3" (some "01") 11 [5] "Hi" (by decide)]
  rfl

/-- C1 counterexample: an intro item under a bare rule counter (rule 3) with
no subsection in section "2" is emitted unnumbered — not numbered "2.03.00"
as the claim's fourth case demands. -/
theorem c1_counterexample :
    process_li [] (mkLi "Intro words") "2" none 3 [] true = ["Intro words"] ∧
      ruleNumberOf true "2" none 3 [] = none := by
  constructor
  · rfl
  · rfl

/-! ## C6: regular numbering to arbitrary depth -/

theorem ruleNumberOf_regular (sec : String) (ss : Option String) (rule : Nat)
    (path : List Nat) :
    ruleNumberOf false sec ss rule path =
      some (joinWith "."
        ([sec] ++ (match ss with | some x => [x] | none => []) ++
          [pad2 rule] ++ path.map pad2)) := by
  cases ss with
  | some s =>
    by_cases hp : path = []
    · subst hp
      simp only [ruleNumberOf, Bool.false_eq_true, if_false, ne_eq, not_true_eq_false,
        ite_false, List.map_nil, List.append_nil, Option.some.injEq]
      apply strExt
      simp [joinWith, strData_append, List.append_assoc]
    · simp only [ruleNumberOf, Bool.false_eq_true, if_false, hp, ne_eq, not_false_eq_true,
        ite_true, format_rule_number]
  | none =>
    by_cases hp : path = []
    · subst hp
      simp only [ruleNumberOf, Bool.false_eq_true, if_false, ne_eq, not_true_eq_false,
        ite_false, List.map_nil, List.append_nil, Option.some.injEq]
      apply strExt
      simp [joinWith, strData_append, List.append_assoc]
    · simp only [ruleNumberOf, Bool.false_eq_true, if_false, hp, ne_eq, not_false_eq_true,
        ite_true, format_rule_number]

/-- C6: a regular (non-intro, non-excluded) plain item is numbered
`<section>[.<subsection>].<rule>` with the rule and every subrule-path
component zero-padded to two digits, to arbitrary depth; in particular the
item at section "3", subsection "01", rule 11 yields a first nested child
numbered 3.01.11.01 and a further-nested grandchild numbered 3.01.11.01.01. -/
theorem c6_regular_numbering :
    (∀ (sec : String) (ss : Option String) (rule : Nat) (path : List Nat) (s : String),
        clean_text s ≠ "" →
        process_li [] (mkLi s) sec ss rule path false =
          [joinWith "."
              ([sec] ++ (match ss with | some x => [x] | none => []) ++
                [pad2 rule] ++ path.map pad2) ++ " " ++ clean_text s]) ∧
      process_li [] c6doc "3" (some "01") 11 [] false =
        ["3.01.11 Setup", "3.01.11.01 Child", "3.01.11.01.01 Grand"] := by
  constructor
  · intro sec ss rule path s hs
    rw [process_li_mkLi [] sec ss rule path false s rfl hs, ruleNumberOf_regular]
  · decide

/-- C6 witness: rule 7 of section "4" with subrule path `[2, 3]` and no
subsection numbers `4.07.02.03`. -/
theorem c6_regular_numbering_witness :
    process_li [] (mkLi "Go") "4" none 7 [2, 3] false = ["4.07.02.03 Go"] := by
  rw [c6_regular_numbering.1 "4" none 7 [2, 3] "Go" (by decide)]
  rfl

/-! ## C5: the first-item intro heuristic -/

theorem ruleNumberOf_false_snoc (sec : String) (ss : Option String) (rule : Nat)
    (path : List Nat) (k : Nat) :
    ruleNumberOf false sec ss rule (path ++ [k]) =
      some (format_rule_number sec ss rule (path ++ [k])) := by
  cases ss <;>
    simp [ruleNumberOf, Bool.false_eq_true, if_false]

theorem tagOf_mkLi (s : String) : (mkLi s).tagOf = "li" := rfl

theorem classes_mkLi (s : String) : (mkLi s).classesOf.contains "intro" = false := rfl

theorem is_hidden_mkLi (anc : List String) (s : String)
    (hanc : anc.any styleDN = false) : is_hidden anc (mkLi s) = false := by
  simp only [mkLi, is_hidden, hanc, styleDN_empty]
  rfl

/-- One step of the nested-items loop on a plain item that is not the
heuristically skipped first item: it consumes counter slot `nidx + 1`. -/
theorem nestedLoop_mkLi_step (anc : List String) (sec : String) (ss : Option String)
    (rule : Nat) (path : List Nat) (skipF : Bool) (s : String) (rest : NodeList)
    (idx nidx : Nat) (hanc : anc.any styleDN = false) (hs : clean_text s ≠ "")
    (hidx : (skipF && idx == 0) = false) :
    nestedLoop anc sec ss rule path skipF (NodeList.cons (mkLi s) rest) idx nidx =
      (format_rule_number sec ss rule (path ++ [nidx + 1]) ++ " " ++ clean_text s) ::
        nestedLoop anc sec ss rule path skipF rest (idx + 1) (nidx + 1) := by
  have hh := is_hidden_mkLi anc s hanc
  have htag := tagOf_mkLi s
  have hcl := classes_mkLi s
  simp only [nestedLoop, htag, hh, Bool.false_eq_true, if_false, hidx, if_true, ite_true,
    ite_false, hcl]
  rw [process_li_mkLi anc sec ss rule (path ++ [nidx + 1]) false s hanc hs,
    ruleNumberOf_false_snoc]
  rfl

/-- One step of the nested-items loop on the heuristically detected intro
first item: it is processed with `is_intro` and the parent's own path, and
consumes no counter slot. -/
theorem nestedLoop_skipFirst_step (anc : List String) (sec : String) (ss : Option String)
    (rule : Nat) (path : List Nat) (s : String) (rest : NodeList) (nidx : Nat)
    (hanc : anc.any styleDN = false) (hs : clean_text s ≠ "") :
    nestedLoop anc sec ss rule path true (NodeList.cons (mkLi s) rest) 0 nidx =
      (match ruleNumberOf true sec ss rule path with
       | some n => n ++ " " ++ clean_text s
       | none => clean_text s) ::
        nestedLoop anc sec ss rule path true rest 1 nidx := by
  have hh := is_hidden_mkLi anc s hanc
  have htag := tagOf_mkLi s
  simp only [nestedLoop, htag, hh, Bool.false_eq_true, if_false, beq_self_eq_true,
    Bool.and_self, Bool.and_true, eq_self_iff_true, if_true, ite_true]
  rw [process_li_mkLi anc sec ss rule path true s hanc hs]
  cases ruleNumberOf true sec ss rule path <;> rfl

theorem gtc_mkParent (anc : List String) (b : Bool) (t : String) (items : NodeList)
    (hanc : anc.any styleDN = false) :
    get_text_content anc b true (mkParent t items) = clean_text t := by
  have hh : is_hidden anc
      (Node.elem "li" "" [] []
        (NodeList.cons (Node.text t)
          (NodeList.cons (Node.elem "ol" "" [] [] items) NodeList.nil))) = false := by
    simp only [is_hidden, hanc, styleDN_empty]
    rfl
  have hcn : (([] : List String).contains "notclassic") = false := rfl
  simp only [mkParent, get_text_content, hh, hcn, Bool.false_eq_true, if_false, textParts,
    joinParts]
  rw [strAppend_nil]

theorem process_li_mkParent (anc : List String) (sec : String) (ss : Option String)
    (rule : Nat) (path : List Nat) (b : Bool) (t : String) (items : NodeList)
    (hanc : anc.any styleDN = false) (ht : clean_text t ≠ "")
    (hx : extract_cross_references anc (mkParent t items) = "") :
    process_li anc (mkParent t items) sec ss rule path b =
      (match ruleNumberOf b sec ss rule path with
       | some n => n ++ " " ++ clean_text t
       | none => clean_text t) ::
        nestedLoop ("" :: "" :: anc) sec ss rule path
          (computeSkipFirst ("" :: "" :: anc) items) items 0 0 := by
  have hanc1 : (("" : String) :: anc).any styleDN = false := by
    simp [List.any_cons, hanc, styleDN_empty]
  have hh : is_hidden anc
      (Node.elem "li" "" [] []
        (NodeList.cons (Node.text t)
          (NodeList.cons (Node.elem "ol" "" [] [] items) NodeList.nil))) = false := by
    simp only [is_hidden, hanc, styleDN_empty]
    rfl
  have hhol : is_hidden (("" : String) :: anc) (Node.elem "ol" "" [] [] items) = false := by
    simp only [is_hidden, hanc1, styleDN_empty]
    rfl
  have hgt := gtc_mkParent anc false t items hanc
  have hcn : (([] : List String).contains "notclassic") = false := rfl
  simp only [mkParent] at hgt
  simp only [mkParent] at hx
  simp only [mkParent, process_li, hh, hcn, Bool.false_eq_true, if_false, hgt, hx, ite_true,
    if_pos rfl, if_neg ht, scanOl, hhol]
  cases hr : ruleNumberOf b sec ss rule path <;> simp [hr]

/-- C5: when the first item of a nested list has no internal anchor and its
flattened link-stripped lowered text matches an editorial lead-in phrasing,
it is classified as intro and excluded from sibling indexing: the siblings
`[intro, A, B, C]` receive subrule counters 1, 2, 3 (never 2, 3, 4). -/
theorem c5_heuristic_intro_skip (sec t0 a b c : String)
    (h0 : isIntroTextPattern (pyLower (clean_text t0)) = true)
    (ht : clean_text t0 ≠ "") (ha : clean_text a ≠ "") (hb : clean_text b ≠ "")
    (hc : clean_text c ≠ "") :
    process_li [] (mkParent "Parent" (mkLis [t0, a, b, c])) sec none 2 [] false =
      [sec ++ "." ++ pad2 2 ++ " " ++ "Parent",
       clean_text t0,
       format_rule_number sec none 2 [1] ++ " " ++ clean_text a,
       format_rule_number sec none 2 [2] ++ " " ++ clean_text b,
       format_rule_number sec none 2 [3] ++ " " ++ clean_text c] := by
  have hx : extract_cross_references [] (mkParent "Parent" (mkLis [t0, a, b, c])) = "" := rfl
  have hskip : computeSkipFirst ["", ""] (mkLis [t0, a, b, c]) = true := by
    have hg := gtc_plain_li ["", ""] true true t0 (by decide)
    have hna : hasNamedA
        (Node.elem "li" "" [] [] (NodeList.cons (Node.text t0) NodeList.nil)) = false := rfl
    simp only [mkLis, mkLi, computeSkipFirst, firstLi, Node.tagOf, eq_self_iff_true,
      if_true, ite_true, hna, hg, Bool.not_false, Bool.true_and, h0]
  rw [process_li_mkParent [] sec none 2 [] false "Parent" (mkLis [t0, a, b, c]) rfl
    (by decide) hx]
  rw [hskip]
  have hr0 : ruleNumberOf false sec none 2 [] = some (sec ++ "." ++ pad2 2) := by
    simp [ruleNumberOf]
  have hri : ruleNumberOf true sec none 2 [] = none := by
    simp [ruleNumberOf]
  simp only [hr0, mkLis]
  rw [nestedLoop_skipFirst_step ["", ""] sec none 2 [] t0 _ 0 (by decide) ht]
  simp only [hri]
  rw [nestedLoop_mkLi_step ["", ""] sec none 2 [] true a _ 1 0 (by decide) ha rfl]
  rw [nestedLoop_mkLi_step ["", ""] sec none 2 [] true b _ 2 1 (by decide) hb rfl]
  rw [nestedLoop_mkLi_step ["", ""] sec none 2 [] true c _ 3 2 (by decide) hc rfl]
  rfl

/-- C5 witness: a concrete document with intro text "This section lists all
actions." followed by Alpha, Beta, Gamma under rule 3.02. -/
theorem c5_heuristic_intro_skip_witness :
    process_li []
        (mkParent "Parent"
          (mkLis ["This section lists all actions.", "Alpha", "Beta", "Gamma"]))
        "3" none 2 [] false =
      ["3.02 Parent", "This section lists all actions.",
       "3.02.01 Alpha", "3.02.02 Beta", "3.02.03 Gamma"] := by
  rw [c5_heuristic_intro_skip "3" "This section lists all actions." "Alpha" "Beta" "Gamma"
    (by decide) (by decide) (by decide) (by decide) (by decide)]
  decide

/-! ## C2: excluded items -/

theorem beq_zero_false_of_ne {i : Nat} (hi : i ≠ 0) : (i == 0) = false := by
  cases i with
  | zero => exact absurd rfl hi
  | succ k => rfl

theorem bool_eq_false_of_not_true {x : Bool} (h : ¬ x = true) : x = false := by
  revert h; cases x <;> simp

/-- Because `enumerate`'s index is only consulted by the `skip_first and idx == 0`
test, so any two non-zero starting indices give the same nested-loop output. -/
theorem nestedLoop_idx_irrel (anc : List String) (sec : String) (ss : Option String)
    (rule : Nat) (path : List Nat) (skipF : Bool) :
    ∀ (l : NodeList) (i j nidx : Nat), i ≠ 0 → j ≠ 0 →
      nestedLoop anc sec ss rule path skipF l i nidx =
        nestedLoop anc sec ss rule path skipF l j nidx := by
  refine nodeListInd _ ?_ ?_
  · intro i j nidx _ _
    rfl
  · intro n l ih i j nidx hi hj
    have hbi := beq_zero_false_of_ne hi
    have hbj := beq_zero_false_of_ne hj
    by_cases htag : n.tagOf = "li"
    · simp only [nestedLoop, htag, eq_self_iff_true, if_true, ite_true]
      by_cases hhid : is_hidden anc n = true
      · simp only [hhid, if_true, ite_true]
        exact ih (i + 1) (j + 1) nidx (Nat.succ_ne_zero i) (Nat.succ_ne_zero j)
      · have hhid2 := bool_eq_false_of_not_true hhid
        simp only [hhid2, Bool.false_eq_true, if_false, hbi, hbj, Bool.and_false]
        rw [ih (i + 1) (j + 1) (nidx + 1) (Nat.succ_ne_zero i) (Nat.succ_ne_zero j)]
    · simp only [nestedLoop, if_neg htag]
      exact ih i j nidx hi hj

/-- The nested-counter analogue for the subsection loop. -/
theorem subsecLoop_idx_irrel (anc : List String) (secn ssn : String) (skipF : Bool) :
    ∀ (l : NodeList) (i j nc : Nat), i ≠ 0 → j ≠ 0 →
      subsecLoop anc secn ssn skipF l i nc = subsecLoop anc secn ssn skipF l j nc := by
  refine nodeListInd _ ?_ ?_
  · intro i j nc _ _
    rfl
  · intro n l ih i j nc hi hj
    have hbi := beq_zero_false_of_ne hi
    have hbj := beq_zero_false_of_ne hj
    by_cases htag : n.tagOf = "li"
    · simp only [subsecLoop, htag, eq_self_iff_true, if_true, ite_true]
      by_cases hhid : is_hidden anc n = true
      · simp only [hhid, if_true, ite_true]
        exact ih (i + 1) (j + 1) nc (Nat.succ_ne_zero i) (Nat.succ_ne_zero j)
      · have hhid2 := bool_eq_false_of_not_true hhid
        simp only [hhid2, Bool.false_eq_true, if_false, hbi, hbj, Bool.and_false]
        by_cases hcl : n.classesOf.contains "intro" = true
        · simp only [hcl, if_true, ite_true]
          rw [ih (i + 1) (j + 1) nc (Nat.succ_ne_zero i) (Nat.succ_ne_zero j)]
        · have hcl2 := bool_eq_false_of_not_true hcl
          simp only [hcl2, Bool.false_eq_true, if_false]
          rw [ih (i + 1) (j + 1) (nc + 1) (Nat.succ_ne_zero i) (Nat.succ_ne_zero j)]
    · simp only [subsecLoop, if_neg htag]
      exact ih i j nc hi hj

/-- C2 (amended): an excluded item (hidden, or carrying the marker class)
emits no lines and its subtree is never entered; a hidden sibling is skipped
without consuming a counter slot in the top-level loop, and in the nested and
subsection loops whenever it is not at the first `enumerate` position.  (In
the suppressed-numbering branch the child numbering is positional, so a hidden
child does shift later siblings — see the counterexample; and marker-class
items, though silent, do consume slots in the nested and top-level loops.) -/
theorem c2_excluded_pruned :
    (∀ (anc : List String) (li : Node) (sec : String) (ss : Option String)
        (rule : Nat) (path : List Nat) (b : Bool),
        is_hidden anc li = true ∨ li.classesOf.contains "notclassic" = true →
        process_li anc li sec ss rule path b = []) ∧
      (∀ (anc : List String) (sec : String) (ss : Option String) (rule : Nat)
          (path : List Nat) (skipF : Bool) (h : Node) (rest : NodeList) (i nidx : Nat),
          is_hidden anc h = true → 1 ≤ i →
          nestedLoop anc sec ss rule path skipF (NodeList.cons h rest) i nidx =
            nestedLoop anc sec ss rule path skipF rest i nidx) ∧
      (∀ (anc : List String) (secn : String) (startn : Nat) (h : Node)
          (rest : NodeList) (ctr : Nat),
          is_hidden anc h = true →
          topLoop anc secn startn (NodeList.cons h rest) ctr =
            topLoop anc secn startn rest ctr) ∧
      (∀ (anc : List String) (secn ssn : String) (skipF : Bool) (h : Node)
          (rest : NodeList) (i nc : Nat),
          is_hidden anc h = true → 1 ≤ i →
          subsecLoop anc secn ssn skipF (NodeList.cons h rest) i nc =
            subsecLoop anc secn ssn skipF rest i nc) := by
  refine ⟨?_, ?_, ?_, ?_⟩
  · intro anc li sec ss rule path b hexc
    cases li with
    | text s => rfl
    | elem t st cl a ch =>
      rcases hexc with hh | hm
      · simp only [process_li, hh, if_true, ite_true]
      · simp only [Node.classesOf] at hm
        by_cases hh : is_hidden anc (Node.elem t st cl a ch) = true
        · simp only [process_li, hh, if_true, ite_true]
        · have hh2 := bool_eq_false_of_not_true hh
          simp only [process_li, hh2, Bool.false_eq_true, if_false, hm, if_true, ite_true]
  · intro anc sec ss rule path skipF h rest i nidx hh hi
    cases h with
    | text s => simp [is_hidden] at hh
    | elem t st cl a ch =>
      by_cases htag : (Node.elem t st cl a ch).tagOf = "li"
      · simp only [nestedLoop, htag, eq_self_iff_true, if_true, ite_true, hh]
        exact nestedLoop_idx_irrel anc sec ss rule path skipF rest (i + 1) i nidx
          (Nat.succ_ne_zero i) (Nat.one_le_iff_ne_zero.1 hi)
      · simp only [nestedLoop, if_neg htag]
  · intro anc secn startn h rest ctr hh
    cases h with
    | text s => simp [is_hidden] at hh
    | elem t st cl a ch =>
      by_cases htag : (Node.elem t st cl a ch).tagOf = "li"
      · simp only [topLoop, htag, eq_self_iff_true, if_true, ite_true, hh]
      · simp only [topLoop, if_neg htag]
  · intro anc secn ssn skipF h rest i nc hh hi
    cases h with
    | text s => simp [is_hidden] at hh
    | elem t st cl a ch =>
      by_cases htag : (Node.elem t st cl a ch).tagOf = "li"
      · simp only [subsecLoop, htag, eq_self_iff_true, if_true, ite_true, hh]
        exact subsecLoop_idx_irrel anc secn ssn skipF rest (i + 1) i nc
          (Nat.succ_ne_zero i) (Nat.one_le_iff_ne_zero.1 hi)
      · simp only [subsecLoop, if_neg htag]

/-- C2 witness: a concrete hidden item emits nothing and leaves its following
sibling's numbering untouched in each loop. -/
theorem c2_excluded_pruned_witness :
    process_li [] (hidLi "Ghost") "1" none 3 [] false = [] ∧
      nestedLoop [] "1" none 3 [] false (NodeList.cons (hidLi "Ghost") (mkLis ["X"])) 1 0 =
        nestedLoop [] "1" none 3 [] false (mkLis ["X"]) 1 0 ∧
      topLoop [] "2" 1 (NodeList.cons (hidLi "Ghost") (mkLis ["X"])) 1 =
        topLoop [] "2" 1 (mkLis ["X"]) 1 ∧
      subsecLoop [] "2" "01" false (NodeList.cons (hidLi "Ghost") (mkLis ["X"])) 1 0 =
        subsecLoop [] "2" "01" false (mkLis ["X"]) 1 0 :=
  ⟨c2_excluded_pruned.1 [] (hidLi "Ghost") "1" none 3 [] false (Or.inl (by decide)),
    c2_excluded_pruned.2.1 [] "1" none 3 [] false (hidLi "Ghost") (mkLis ["X"]) 1 0
      (by decide) (by decide),
    c2_excluded_pruned.2.2.1 [] "2" 1 (hidLi "Ghost") (mkLis ["X"]) 1 (by decide),
    c2_excluded_pruned.2.2.2 [] "2" "01" false (hidLi "Ghost") (mkLis ["X"]) 1 0
      (by decide) (by decide)⟩

/-- C2 counterexample: in the suppressed-numbering branch the hidden middle
child consumes a positional counter slot — Beta is numbered 1.00.02, not the
1.00.01 it would receive if the hidden item were absent. -/
theorem c2_counterexample :
    process_section [] c2doc "1" = "1.00.00 Alpha\n1.00.02 Beta" ∧
      process_section [] c2doc "1" ≠ "1.00.00 Alpha\n1.00.01 Beta" := by
  constructor
  · decide
  · decide

/-! ## C3: intro items and counters -/

/-- C3 (amended): intro items leave the counter unchanged in exactly two
places — a class-marked intro directly under a subsection header is processed
with rule 0 and passes `nested_counter` through untouched, and the
heuristically detected first nested item is processed with the parent's path
and passes `nested_idx` through untouched.  (Class-marked intros at the top
level and inside nested lists do consume a counter slot — see the
counterexample.) -/
theorem c3_intro_counters :
    (∀ (anc : List String) (secn ssn : String) (skipF : Bool) (it : Node)
        (rest : NodeList) (idx nc : Nat),
        it.tagOf = "li" → it.classesOf.contains "intro" = true →
        is_hidden anc it = false →
        subsecLoop anc secn ssn skipF (NodeList.cons it rest) idx nc =
          process_li anc it secn (some ssn) 0 [] true ++
            subsecLoop anc secn ssn skipF rest (idx + 1) nc) ∧
      (∀ (anc : List String) (sec : String) (ss : Option String) (rule : Nat)
          (path : List Nat) (it : Node) (rest : NodeList) (nidx : Nat),
          it.tagOf = "li" → is_hidden anc it = false →
          nestedLoop anc sec ss rule path true (NodeList.cons it rest) 0 nidx =
            process_li anc it sec ss rule path true ++
              nestedLoop anc sec ss rule path true rest 1 nidx) := by
  constructor
  · intro anc secn ssn skipF it rest idx nc htag hcl hhid
    simp only [subsecLoop, htag, eq_self_iff_true, if_true, ite_true, hhid,
      Bool.false_eq_true, if_false]
    by_cases hsk : (skipF && idx == 0) = true
    · simp only [hsk, if_true, ite_true]
    · have hsk2 := bool_eq_false_of_not_true hsk
      simp only [hsk2, Bool.false_eq_true, if_false, hcl, if_true, ite_true]
  · intro anc sec ss rule path it rest nidx htag hhid
    simp only [nestedLoop, htag, eq_self_iff_true, if_true, ite_true, hhid,
      Bool.false_eq_true, if_false, beq_self_eq_true, Bool.and_self, Bool.and_true]

/-- C3 witness: a concrete class-marked intro under a subsection passes the
counter through, and a concrete heuristic first item does too. -/
theorem c3_intro_counters_witness :
    subsecLoop [] "2" "01" false (NodeList.cons (introLi "Lead") (mkLis ["X"])) 0 0 =
        process_li [] (introLi "Lead") "2" (some "01") 0 [] true ++
          subsecLoop [] "2" "01" false (mkLis ["X"]) 1 0 ∧
      nestedLoop [] "2" none 4 [] true (NodeList.cons (mkLi "Lead") (mkLis ["X"])) 0 0 =
        process_li [] (mkLi "Lead") "2" none 4 [] true ++
          nestedLoop [] "2" none 4 [] true (mkLis ["X"]) 1 0 :=
  ⟨c3_intro_counters.1 [] "2" "01" false (introLi "Lead") (mkLis ["X"]) 0 0 rfl
      (by decide) (by decide),
    c3_intro_counters.2 [] "2" none 4 [] (mkLi "Lead") (mkLis ["X"]) 0 rfl (by decide)⟩

/-- C3 counterexample: in a nested list, the class-marked intro consumes
subrule counter 1 (its own number even ends `...01.00`), so its sibling Alpha
receives counter 2 — not the counter 1 the intro "would otherwise have
received". -/
theorem c3_counterexample :
    process_li []
        (mkParent "Parent" (NodeList.cons (introLi "Intro words") (mkLis ["Alpha"])))
        "3" (some "01") 5 [] false =
      ["3.01.05 Parent", "3.01.05.01.00 Intro words", "3.01.05.02 Alpha"] ∧
      process_li []
          (mkParent "Parent" (NodeList.cons (introLi "Intro words") (mkLis ["Alpha"])))
          "3" (some "01") 5 [] false ≠
        ["3.01.05 Parent", "3.01.05.00 Intro words", "3.01.05.01 Alpha"] := by
  constructor
  · decide
  · decide

/-! ## C4: suppressed-numbering containers -/

theorem strDataMk (l : List Char) : (String.mk l).data = l := rfl

theorem digitChar_digit {n : Nat} (h : n < 10) : isPyDigit (digitChar n) = true := by
  interval_cases n <;> decide

theorem natDecAux_digits : ∀ (fuel n : Nat), ∀ c ∈ natDecAux fuel n, isPyDigit c = true := by
  intro fuel
  induction fuel with
  | zero => intro n c hc; simp [natDecAux] at hc
  | succ f ih =>
    intro n c hc
    rw [natDecAux] at hc
    by_cases h : n < 10
    · rw [if_pos h] at hc
      simp only [List.mem_singleton] at hc
      exact hc ▸ digitChar_digit h
    · rw [if_neg h] at hc
      rcases List.mem_append.1 hc with h1 | h2
      · exact ih (n / 10) c h1
      · simp only [List.mem_singleton] at h2
        exact h2 ▸ digitChar_digit (Nat.mod_lt n (by norm_num))

theorem pad2_digits (n : Nat) : ∀ c ∈ (pad2 n).data, isPyDigit c = true := by
  unfold pad2
  by_cases h : n < 10
  · rw [if_pos h]
    intro c hc
    rw [strDataMk] at hc
    rcases List.mem_cons.1 hc with h1 | h1
    · subst h1; decide
    · exact natDecAux_digits _ _ c h1
  · rw [if_neg h]
    intro c hc
    rw [strDataMk] at hc
    exact natDecAux_digits _ _ c hc

theorem natDecAux_ne_nil (fuel n : Nat) (h : 1 ≤ fuel) : natDecAux fuel n ≠ [] := by
  cases fuel with
  | zero => omega
  | succ f =>
    rw [natDecAux]
    by_cases hn : n < 10
    · simp [hn]
    · simp [hn]

theorem pad2_ne_nil (n : Nat) : (pad2 n).data ≠ [] := by
  unfold pad2
  by_cases h : n < 10
  · rw [if_pos h, strDataMk]
    simp
  · rw [if_neg h, strDataMk]
    exact natDecAux_ne_nil _ _ (by omega)

theorem takeWhile_all_cons (p : Char → Bool) (w : List Char) (c : Char) (t : List Char)
    (hw : ∀ x ∈ w, p x = true) (hc : p c = false) :
    (w ++ c :: t).takeWhile p = w := by
  induction w with
  | nil => simp [List.takeWhile_cons, hc]
  | cons a as ih =>
    have ha : p a = true := hw a (by simp)
    simp [List.takeWhile_cons, ha, ih (fun x hx => hw x (by simp [hx]))]

/-- The per-line renumbering of the suppressed branch leaves the already
correct line `1.00.<pad2 k> <text>` untouched. -/
theorem fixSuppLine_id (k : Nat) (t : String) :
    fixSuppLine k ("1" ++ "." ++ "00" ++ "." ++ pad2 k ++ " " ++ t) =
      "1" ++ "." ++ "00" ++ "." ++ pad2 k ++ " " ++ t := by
  have h1 : ("1" ++ "." ++ "00" ++ "." ++ pad2 k ++ " " ++ t).data =
      '1' :: '.' :: '0' :: '0' :: '.' :: (((pad2 k).data ++ [' ']) ++ t.data) := rfl
  have h2 : (((pad2 k).data ++ [' ']) ++ t.data) = (pad2 k).data ++ (' ' :: t.data) := by
    rw [List.append_assoc]
    rfl
  have hdata : ("1" ++ "." ++ "00" ++ "." ++ pad2 k ++ " " ++ t).data =
      '1' :: '.' :: '0' :: '0' :: '.' :: ((pad2 k).data ++ ' ' :: t.data) := by
    rw [h1, h2]
  have hstarts : pyStarts ("1" ++ "." ++ "00" ++ "." ++ pad2 k ++ " " ++ t) "1." = true := by
    rw [pyStarts, hdata]
    simp [List.isPrefixOf]
  have htake : ((pad2 k).data ++ ' ' :: t.data).takeWhile isPyDigit = (pad2 k).data :=
    takeWhile_all_cons isPyDigit _ ' ' _ (pad2_digits k) (by decide)
  have hdrop : ((pad2 k).data ++ ' ' :: t.data).dropWhile isPyDigit = ' ' :: t.data :=
    dropWhile_all_cons isPyDigit _ ' ' _ (pad2_digits k) (by decide)
  have hne : ((pad2 k).data ++ ' ' :: t.data).takeWhile isPyDigit ≠ [] := by
    rw [htake]; exact pad2_ne_nil k
  have hemp : (((pad2 k).data ++ ' ' :: t.data).takeWhile isPyDigit).isEmpty = false := by
    rw [htake]
    cases hp : (pad2 k).data with
    | nil => exact absurd hp (pad2_ne_nil k)
    | cons x xs => rfl
  rw [fixSuppLine, if_pos hstarts]
  by_cases hk : k = 0
  · subst hk
    rw [if_pos rfl, subSupp, hdata]
    simp only [hemp, Bool.false_eq_true, if_false, hdrop]
    apply strExt
    rw [strDataMk, hdata]
    rfl
  · rw [if_neg hk, subSupp, hdata]
    simp only [hemp, Bool.false_eq_true, if_false, hdrop]
    apply strExt
    rw [strDataMk, hdata]
    have : ("1.00." ++ pad2 k).data = ['1', '.', '0', '0', '.'] ++ (pad2 k).data := rfl
    rw [this]
    rfl

theorem suppLoop_sec1 (anc : List String) (hanc : anc.any styleDN = false) :
    ∀ (ts : List String) (k : Nat), (∀ t ∈ ts, clean_text t ≠ "") →
      suppLoop anc "1" (mkLis ts) k = suppSpecLines "1.00." ts k := by
  intro ts
  induction ts with
  | nil => intro k _; rfl
  | cons t ts ih =>
    intro k hts
    have ht : clean_text t ≠ "" := hts t (by simp)
    have hh := is_hidden_mkLi anc t hanc
    have htag := tagOf_mkLi t
    have hcl : (mkLi t).classesOf.contains "intro" = false := rfl
    simp only [mkLis, suppLoop, htag, eq_self_iff_true, if_true, ite_true, hh,
      Bool.false_eq_true, if_false, hcl, Bool.and_false]
    rw [process_li_mkLi anc "1" (some "00") k [] false t hanc ht]
    have hrn : ruleNumberOf false "1" (some "00") k [] =
        some ("1" ++ "." ++ "00" ++ "." ++ pad2 k) := by
      simp [ruleNumberOf]
    simp only [hrn, List.map_cons, List.map_nil]
    rw [fixSuppLine_id k (clean_text t)]
    rw [ih (k + 1) (fun x hx => hts x (by simp [hx]))]
    rfl

theorem suppLoop_other (anc : List String) (secn : String) (hanc : anc.any styleDN = false)
    (hsec : ¬ secn = "1") :
    ∀ (ts : List String) (k : Nat), (∀ t ∈ ts, clean_text t ≠ "") →
      suppLoop anc secn (mkLis ts) k = suppSpecLines (secn ++ ".") ts k := by
  intro ts
  induction ts with
  | nil => intro k _; rfl
  | cons t ts ih =>
    intro k hts
    have ht : clean_text t ≠ "" := hts t (by simp)
    have hh := is_hidden_mkLi anc t hanc
    have htag := tagOf_mkLi t
    have hcl : (mkLi t).classesOf.contains "intro" = false := rfl
    simp only [mkLis, suppLoop, htag, eq_self_iff_true, if_true, ite_true, hh,
      Bool.false_eq_true, if_false, hcl, Bool.and_false, if_neg hsec]
    rw [process_li_mkLi anc secn none k [] false t hanc ht]
    have hrn : ruleNumberOf false secn none k [] = some (secn ++ "." ++ pad2 k) := by
      simp [ruleNumberOf]
    simp only [hrn]
    rw [ih (k + 1) (fun x hx => hts x (by simp [hx]))]
    rfl

/-- C4 (amended): the unpacked visible plain children of a suppressed
container are numbered by their positional index `k` among the container's
`li` children: `1.00.<pad2 k>` under canonical section "1" and
`<section>.<pad2 k>` (bare scheme, no subsection, starting at index 0) under
any other section.  The numbers are consecutive exactly when no child is
hidden; a hidden child keeps its positional slot and leaves a gap (see the
counterexample). -/
theorem c4_suppressed_numbering :
    (∀ (anc : List String) (ts : List String) (k : Nat),
        anc.any styleDN = false → (∀ t ∈ ts, clean_text t ≠ "") →
        suppLoop anc "1" (mkLis ts) k = suppSpecLines "1.00." ts k) ∧
      (∀ (anc : List String) (secn : String) (ts : List String) (k : Nat),
          anc.any styleDN = false → ¬ secn = "1" → (∀ t ∈ ts, clean_text t ≠ "") →
          suppLoop anc secn (mkLis ts) k = suppSpecLines (secn ++ ".") ts k) :=
  ⟨fun anc ts k hanc hts => suppLoop_sec1 anc hanc ts k hts,
    fun anc secn ts k hanc hsec hts => suppLoop_other anc secn hanc hsec ts k hts⟩

/-- C4 witness: two visible children in section "1" number 1.00.00 and
1.00.01; in section "3" they number 3.00 and 3.01. -/
theorem c4_suppressed_numbering_witness :
    suppLoop [] "1" (mkLis ["Alpha", "Beta"]) 0 = ["1.00.00 Alpha", "1.00.01 Beta"] ∧
      suppLoop [] "3" (mkLis ["Alpha", "Beta"]) 0 = ["3.00 Alpha", "3.01 Beta"] := by
  constructor
  · rw [c4_suppressed_numbering.1 [] ["Alpha", "Beta"] 0 (by decide) (by decide)]
    decide
  · rw [c4_suppressed_numbering.2 [] "3" ["Alpha", "Beta"] 0 (by decide) (by decide)
      (by decide)]
    decide

/-- C4 counterexample: with a hidden child present the emitted numbers are
1.00.00, 1.00.02, 1.00.03 — not the consecutive 1.00.00, 1.00.01, 1.00.02
the claim asserts. -/
theorem c4_counterexample :
    process_section [] c4doc "1" = "1.00.00 One\n1.00.02 Two\n1.00.03 Three" ∧
      process_section [] c4doc "1" ≠ "1.00.00 One\n1.00.01 Two\n1.00.02 Three" := by
  constructor
  · decide
  · decide

/-! ## C9: section processing robustness and the start attribute -/

theorem getAttr_startAttrs (a : Option String) : getAttr (startAttrs a) "start" = a := by
  cases a <;> rfl

theorem topLoop_mkLis (anc : List String) (secn : String) (startn : Nat)
    (hanc : anc.any styleDN = false) :
    ∀ (ts : List String) (ctr : Nat), (∀ t ∈ ts, clean_text t ≠ "") →
      topLoop anc secn startn (mkLis ts) ctr = numberedFrom secn ts ctr := by
  intro ts
  induction ts with
  | nil => intro ctr _; rfl
  | cons t ts ih =>
    intro ctr hts
    have ht : clean_text t ≠ "" := hts t (by simp)
    have hh := is_hidden_mkLi anc t hanc
    have htag := tagOf_mkLi t
    have hsup : (mkLi t).classesOf.contains "supress_number" = false := rfl
    have hsub : (mkLi t).classesOf.contains "subsection_header" = false := rfl
    have hint : (mkLi t).classesOf.contains "intro" = false := rfl
    simp only [mkLis, topLoop, htag, eq_self_iff_true, if_true, ite_true, hh,
      Bool.false_eq_true, if_false, hsup, hsub, hint, Bool.false_and]
    rw [process_li_mkLi anc secn none ctr [] false t hanc ht]
    have hrn : ruleNumberOf false secn none ctr [] = some (secn ++ "." ++ pad2 ctr) := by
      simp [ruleNumberOf]
    simp only [hrn]
    rw [ih (ctr + 1) (fun x hx => hts x (by simp [hx]))]
    rfl

theorem mem_allDescList_mkLis (anc : List String) :
    ∀ (ts : List String) q, q ∈ allDescList anc (mkLis ts) →
      q.2.tagOf = "li" ∨ q.2.tagOf = "" := by
  intro ts
  induction ts with
  | nil => intro q hq; simp [mkLis, allDescList] at hq
  | cons t ts ih =>
    intro q hq
    simp only [mkLis, allDescList] at hq
    rcases List.mem_cons.1 hq with h | h
    · subst h; left; rfl
    · rcases List.mem_append.1 h with h1 | h2
      · simp only [mkLi, allDesc, allDescList, List.append_nil] at h1
        rcases List.mem_cons.1 h1 with h3 | h3
        · subst h3; right; rfl
        · simp at h3
      · exact ih q h2

theorem sectionHeading_mkSection (a : Option String) (ts : List String) :
    sectionHeading [] (mkSection a ts) = [] := by
  have h : findDescTag [] "h2" (mkSection a ts) = none := by
    rw [findDescTag, List.find?_eq_none]
    intro q hq
    simp only [mkSection, allDesc, allDescList] at hq
    rcases List.mem_cons.1 hq with h1 | h1
    · subst h1; simp [Node.tagOf]
    · rcases List.mem_append.1 h1 with h2 | h2
      · rcases mem_allDescList_mkLis _ ts q h2 with h3 | h3 <;> simp [h3]
      · simp at h2
  simp only [sectionHeading, h]

/-- C9: `process_section` degrades rather than failing — a section with no
ordered list anywhere, or whose main list is hidden, yields only the heading
lines; the declared `start` attribute initializes the top-level counter, with
default 1 when the attribute is absent or not a digit string. -/
theorem c9_section_robustness :
    (∀ (anc : List String) (sec : Node) (secn : String),
        findDescTag anc "ol" sec = none →
        process_section anc sec secn = joinWith "\n" (sectionHeading anc sec)) ∧
      (∀ (anc : List String) (sec : Node) (secn : String) (p : List String × Node),
          findDescTag anc "ol" sec = some p → is_hidden p.1 p.2 = true →
          process_section anc sec secn = joinWith "\n" (sectionHeading anc sec)) ∧
      (startNumOf none = 1 ∧
        (∀ s : String, (s.length > 0 && s.data.all isPyDigit) = false →
          startNumOf (some s) = 1) ∧
        (∀ s : String, (s.length > 0 && s.data.all isPyDigit) = true →
          startNumOf (some s) = natOfDigits s.data)) ∧
      (∀ (a : Option String) (ts : List String) (secn : String),
          (∀ t ∈ ts, clean_text t ≠ "") →
          process_section [] (mkSection a ts) secn =
            joinWith "\n" (numberedFrom secn ts (startNumOf a))) := by
  refine ⟨?_, ?_, ⟨rfl, ?_, ?_⟩, ?_⟩
  · intro anc sec secn h
    simp only [process_section, h]
  · intro anc sec secn p h hhid
    simp only [process_section, h, hhid, if_true, ite_true]
  · intro s h
    simp only [startNumOf, h, Bool.false_eq_true, if_false]
  · intro s h
    simp only [startNumOf, h, if_true, ite_true]
  · intro a ts secn hts
    have hhead := sectionHeading_mkSection a ts
    have hfind : findDescTag [] "ol" (mkSection a ts) =
        some ([""], Node.elem "ol" "" [] (startAttrs a) (mkLis ts)) := rfl
    have hhid : is_hidden [""] (Node.elem "ol" "" [] (startAttrs a) (mkLis ts)) = false := rfl
    simp only [process_section, hfind, hhead, hhid, Bool.false_eq_true, if_false,
      Node.attrsOf, getAttr_startAttrs, Node.styleOf, Node.kidsOf, List.nil_append]
    rw [topLoop_mkLis ("" :: [""]) secn (startNumOf a) (by decide) ts (startNumOf a) hts]

/-- C9 witness: an empty section yields an empty body, a hidden main list
yields an empty body, a start attribute of "4" makes the items 2.04 and 2.05,
and non-numeric / numeric start attributes parse to 1 / 12. -/
theorem c9_section_robustness_witness :
    process_section [] (Node.elem "section" "" [] [] NodeList.nil) "2" = "" ∧
      process_section [] hiddenOlSec "2" = "" ∧
      process_section [] (mkSection (some "4") ["Alpha", "Beta"]) "2" =
        "2.04 Alpha\n2.05 Beta" ∧
      startNumOf (some "x7") = 1 ∧ startNumOf (some "12") = 12 := by
  refine ⟨?_, ?_, ?_, ?_, ?_⟩
  · rw [c9_section_robustness.1 [] (Node.elem "section" "" [] [] NodeList.nil) "2" rfl]
    decide
  · rw [c9_section_robustness.2.1 [] hiddenOlSec "2"
      ([""], Node.elem "ol" "display:none" [] [] (mkLis ["X"])) rfl (by decide)]
    decide
  · rw [c9_section_robustness.2.2.2 (some "4") ["Alpha", "Beta"] "2" (by decide)]
    decide
  · exact c9_section_robustness.2.2.1.2.1 "x7" (by decide)
  · rw [c9_section_robustness.2.2.1.2.2 "12" (by decide)]
    decide
